import Mathlib

set_option linter.unusedVariables false

/-!
Verification development for the Aspen reactive-dataflow core.

The sources embedded here are Lift.hpp (FunctionEvaluation, Lift::commit,
Lift::invoke, the zero-argument Lift specialization), Range.hpp (the range
combinator's lifted lambda) and Until.hpp (Until::commit).  State.hpp,
Maybe.hpp, Constant.hpp, Perpetual.hpp, StateReactor.hpp and
StaticCommitHandler.hpp are not among the provided sources; those parts are
modelled from the specification and say so in their doc comments.
-/

namespace Aspen

/-- Modelled from the spec: the State lattice (spec section 3).  State.hpp is
not among the provided sources.  A state tracks four independent facets:
evaluation, continuation, completion and the empty marker. -/
structure State where
  eval : Bool
  cont : Bool
  complete : Bool
  empty : Bool
deriving DecidableEq

/-- Modelled from the spec: named state with no bits set. -/
def State.NONE : State := ⟨false, false, false, false⟩

/-- Modelled from the spec: named state with only the empty marker. -/
def State.EMPTY : State := ⟨false, false, false, true⟩

/-- Modelled from the spec: named state with the evaluation bit. -/
def State.EVALUATED : State := ⟨true, false, false, false⟩

/-- Modelled from the spec: named state with the continuation bit. -/
def State.CONTINUE : State := ⟨false, true, false, false⟩

/-- Modelled from the spec: evaluation and continuation bits. -/
def State.CONTINUE_EVALUATED : State := ⟨true, true, false, false⟩

/-- Modelled from the spec: named state with the complete bit. -/
def State.COMPLETE : State := ⟨false, false, true, false⟩

/-- Modelled from the spec: complete bit plus the empty marker. -/
def State.COMPLETE_EMPTY : State := ⟨false, false, true, true⟩

/-- Modelled from the spec: complete and evaluation bits. -/
def State.COMPLETE_EVALUATED : State := ⟨true, false, true, false⟩

/-- Modelled from the spec: completion facet accessor. -/
def is_complete (s : State) : Bool := s.complete

/-- Modelled from the spec: evaluation facet accessor. -/
def has_evaluation (s : State) : Bool := s.eval

/-- Modelled from the spec: continuation facet accessor. -/
def has_continuation (s : State) : Bool := s.cont

/-- Modelled from the spec: empty marker accessor. -/
def is_empty (s : State) : Bool := s.empty

/-- Modelled from the spec: combine ORs the eval/cont/complete bits and keeps
empty only if both operands were empty. -/
def combine (a b : State) : State :=
  ⟨a.eval || b.eval, a.cont || b.cont, a.complete || b.complete,
    a.empty && b.empty⟩

/-- Errors (C++ exceptions) are modelled abstractly by string payloads. -/
abbrev Err := String

/-- Modelled from the spec: Maybe<T> (Maybe.hpp is not among the provided
sources), a sum of a value or a deferred error captured from an exception. -/
inductive Maybe (α : Type) where
  | ok (a : α)
  | err (e : Err)
deriving DecidableEq

/-- Reading the slot returns the value or re-raises the captured error; the
raise is modelled by Except. -/
def Maybe.get {α : Type} : Maybe α → Except Err α
  | Maybe.ok a => Except.ok a
  | Maybe.err e => Except.error e

/-- FunctionEvaluation<T> (Lift.hpp): the optional value produced by the
lifted function together with a state hint. -/
structure FunctionEvaluation (α : Type) where
  value : Option (Maybe α)
  state : State
deriving DecidableEq

/-- Constructor FunctionEvaluation(Maybe value): value plus EVALUATED. -/
def FunctionEvaluation.ofMaybe {α : Type} (v : Maybe α) :
    FunctionEvaluation α :=
  ⟨some v, State.EVALUATED⟩

/-- Constructor FunctionEvaluation(Maybe value, State state): the supplied
state is merged into an evaluated state (complete wins, then continuation). -/
def FunctionEvaluation.ofMaybeState {α : Type} (v : Maybe α) (s : State) :
    FunctionEvaluation α :=
  ⟨some v,
    if is_complete s then State.COMPLETE_EVALUATED
    else if has_continuation s then State.CONTINUE_EVALUATED
    else State.EVALUATED⟩

/-- Constructor FunctionEvaluation(optional value, State state): with a value
the merge is as for ofMaybeState, without one the state collapses to
COMPLETE, CONTINUE or NONE. -/
def FunctionEvaluation.ofOptState {α : Type} (v : Option (Maybe α))
    (s : State) : FunctionEvaluation α :=
  ⟨v,
    match v with
    | some _ =>
      if is_complete s then State.COMPLETE_EVALUATED
      else if has_continuation s then State.CONTINUE_EVALUATED
      else State.EVALUATED
    | none =>
      if is_complete s then State.COMPLETE
      else if has_continuation s then State.CONTINUE
      else State.NONE⟩

/-- Constructor FunctionEvaluation(State state): asserts that the state has no
evaluation bit; the result none models the assertion failing. -/
def FunctionEvaluation.fromState (α : Type) (s : State) :
    Option (FunctionEvaluation α) :=
  if has_evaluation s then none else some ⟨none, s⟩

/-- The memoized fields of Lift (Lift.hpp): the value slot, the memoized
state, the last committed sequence, the pending-continuation flag and whether
an evaluation was ever reported. -/
structure LiftMemo (α : Type) where
  value : Maybe α
  state : State
  previousSequence : Int
  hasContinuation : Bool
  hadEvaluation : Bool
deriving DecidableEq

/-- Initial Lift memo: state NONE, previous sequence -1, flags clear; the
value slot starts at the default-constructed value v. -/
def liftInit {α : Type} (v : Maybe α) : LiftMemo α :=
  ⟨v, State.NONE, -1, false, false⟩

/-- The condition of Lift::commit deciding whether to invoke the function:
the aggregated child state S has an evaluation, or a continuation is pending
from the previous commit, or S is complete but not empty. -/
def Lift.trigger {α : Type} (m : LiftMemo α) (S : State) : Bool :=
  has_evaluation S || m.hasContinuation || (is_complete S && !is_empty S)

/-- Lift::invoke plus Details::FunctionEvaluator for a non-void result type:
the call either raises (the exception is captured into the value slot and the
invocation reports EVALUATED) or yields a FunctionEvaluation whose value, when
present, overwrites the slot.  The call outcome is supplied as an input. -/
def Lift.invoke {α : Type} (value : Maybe α)
    (call : Except Err (FunctionEvaluation α)) : Maybe α × State :=
  match call with
  | Except.error e => (Maybe.err e, State.EVALUATED)
  | Except.ok fe =>
    ((match fe.value with
      | some v => v
      | none => value), fe.state)

/-- Body of Lift::commit past the short-circuit guard: commit the children
(their aggregate state S is an input), invoke the function when the trigger
condition holds, merge the invocation with S, and memoize the sequence and
the ever-evaluated flag. -/
def Lift.step {α : Type} (m : LiftMemo α) (seq : Int) (S : State)
    (call : Except Err (FunctionEvaluation α)) : LiftMemo α :=
  let m1 :=
    if Lift.trigger m S then
      let vi := Lift.invoke m.value call
      if vi.2 = State.NONE then
        let st :=
          if is_complete S then
            if m.hadEvaluation then State.COMPLETE else State.COMPLETE_EMPTY
          else if has_continuation S then State.CONTINUE
          else State.NONE
        { m with value := vi.1, state := st, hasContinuation := false }
      else if is_complete vi.2 then
        let st :=
          if has_evaluation vi.2 then State.COMPLETE_EVALUATED
          else if m.hadEvaluation then State.COMPLETE
          else State.COMPLETE_EMPTY
        { m with value := vi.1, state := st, hasContinuation := false }
      else
        let hc := has_continuation vi.2
        let st :=
          if has_continuation S then combine vi.2 State.CONTINUE
          else if is_complete S && !hc then combine vi.2 State.COMPLETE
          else vi.2
        { m with value := vi.1, state := st, hasContinuation := hc }
    else
      { m with state := S }
  { m1 with
    previousSequence := seq,
    hadEvaluation := m1.hadEvaluation || has_evaluation m1.state }

/-- Lift::commit for at least one child.  S is the state aggregated by the
commit handler over the children and call is the outcome of invoking the
lifted function this commit; both are consulted only on the code paths that
use them.  Returns the updated memo (the C++ function returns the memoized
state, here the state field of the result) and whether the children were
committed. -/
def Lift.commit {α : Type} (m : LiftMemo α) (seq : Int) (S : State)
    (call : Except Err (FunctionEvaluation α)) : LiftMemo α × Bool :=
  if seq = m.previousSequence ∨ is_complete m.state = true then
    (m, false)
  else
    (Lift.step m seq S call, true)

/-- Driving a Lift through a list of commits; each input supplies the
sequence number, the aggregated child state and the function-call outcome for
that commit.  Outputs the final memo and, per commit, the returned state and
whether the children were committed. -/
def Lift.run {α : Type} (m : LiftMemo α) :
    List (Int × State × Except Err (FunctionEvaluation α)) →
    LiftMemo α × List (State × Bool)
  | [] => (m, [])
  | (seq, S, call) :: rest =>
    let r := Lift.commit m seq S call
    let t := Lift.run r.1 rest
    (t.1, (r.1.state, r.2) :: t.2)

/-- The memoized fields of the zero-argument Lift specialization. -/
structure Lift0Memo (α : Type) where
  value : Maybe α
  state : State
deriving DecidableEq

/-- Initial memo of the zero-argument Lift: state NONE plus the
default-constructed value v. -/
def lift0Init {α : Type} (v : Maybe α) : Lift0Memo α :=
  ⟨v, State.NONE⟩

/-- Lift<F>::commit (zero-argument specialization): once the memoized state
left NONE it is returned unchanged; otherwise the function is invoked once
and the state becomes COMPLETE_EVALUATED or COMPLETE_EMPTY.  The sequence
argument is accepted but unused, as in the source. -/
def Lift0.commit {α : Type} (m : Lift0Memo α) (seq : Int)
    (call : Except Err (FunctionEvaluation α)) : Lift0Memo α :=
  if m.state ≠ State.NONE then m
  else
    let vi := Lift.invoke m.value call
    let st :=
      if has_evaluation vi.2 then State.COMPLETE_EVALUATED
      else State.COMPLETE_EMPTY
    ⟨vi.1, st⟩

/-- The memoized fields of Until (Until.hpp): whether the series still exists
(m_series.has_value()), the value slot, the memoized condition state, the
memoized own state and the last committed sequence. -/
structure UntilMemo (α : Type) where
  series : Bool
  value : Maybe α
  conditionState : State
  state : State
  previousSequence : Int
deriving DecidableEq

/-- Initial Until memo: series present, condition state EMPTY, own state
EMPTY, previous sequence -1; the value slot starts at v. -/
def untilInit {α : Type} (v : Maybe α) : UntilMemo α :=
  ⟨true, v, State.EMPTY, State.EMPTY, -1⟩

/-- The input of one Until commit: the sequence number, the state returned by
committing the condition, the outcome of reading the condition (a truthiness
or a raised error), the state returned by committing the series, and the
try_eval of the series (an error from the series eval is already captured
into a Maybe by try_eval). -/
structure UntilInput (α : Type) where
  seq : Int
  condState : State
  condEval : Except Err Bool
  seriesState : State
  seriesVal : Maybe α

/-- The trigger condition of Until's condition phase: the condition's latest
commit has an evaluation, or the condition newly became non-empty. -/
def condTrigger {α : Type} (m : UntilMemo α) (inp : UntilInput α) : Bool :=
  has_evaluation inp.condState ||
    (is_empty m.conditionState && !is_empty inp.condState)

/-- The trigger condition of Until's series phase: the series' commit has an
evaluation, or this reactor is still empty while the series is not. -/
def seriesTrigger {α : Type} (m : UntilMemo α) (inp : UntilInput α) : Bool :=
  has_evaluation inp.seriesState ||
    (is_empty m.state && !is_empty inp.seriesState)

/-- Condition phase of Until::commit: when the condition is not yet complete
commit it and, on a triggering commit, read it; a truthy reading destroys the
series and completes the reactor, a raised reading is captured into the value
slot.  Returns the updated memo and whether the condition was committed. -/
def Until.condPhase {α : Type} (m : UntilMemo α) (inp : UntilInput α) :
    UntilMemo α × Bool :=
  if is_complete m.conditionState = true then (m, false)
  else
    let m1 :=
      if condTrigger m inp then
        match inp.condEval with
        | Except.ok true =>
          let st := if is_empty m.state then State.COMPLETE_EMPTY
            else State.COMPLETE
          { m with series := false, state := st }
        | Except.ok false => m
        | Except.error e => { m with value := Maybe.err e }
      else m
    ({ m1 with conditionState := inp.condState }, true)

/-- Series phase of Until::commit: when the series still exists commit it,
adopt its evaluation on a triggering commit, and fold in its completion or
the continuation requests of condition and series.  Returns the updated memo
and whether the series was committed. -/
def Until.seriesPhase {α : Type} (m1 : UntilMemo α) (inp : UntilInput α) :
    UntilMemo α × Bool :=
  if m1.series then
    let m2 :=
      if seriesTrigger m1 inp then
        { m1 with value := inp.seriesVal, state := State.EVALUATED }
      else if is_empty m1.state then
        { m1 with state := State.EMPTY }
      else
        { m1 with state := State.NONE }
    let m3 :=
      if is_complete inp.seriesState then
        { m2 with state := combine m2.state State.COMPLETE }
      else if has_continuation m2.conditionState ||
          has_continuation inp.seriesState then
        { m2 with state := combine m2.state State.CONTINUE }
      else m2
    (m3, true)
  else (m1, false)

/-- Body of Until::commit past the short-circuit guard: the condition phase,
then the series phase, then the sequence memo. -/
def Until.step {α : Type} (m : UntilMemo α) (inp : UntilInput α) :
    UntilMemo α × Bool × Bool :=
  let cp := Until.condPhase m inp
  let sp := Until.seriesPhase cp.1 inp
  ({ sp.1 with previousSequence := inp.seq }, cp.2, sp.2)

/-- Until::commit.  The child commits are supplied as inputs and consulted
only on the code paths that perform them.  Returns the updated memo (the
returned state is its state field), whether the condition was committed and
whether the series was committed. -/
def Until.commit {α : Type} (m : UntilMemo α) (inp : UntilInput α) :
    UntilMemo α × Bool × Bool :=
  if inp.seq = m.previousSequence ∨ is_complete m.state = true then
    (m, false, false)
  else
    Until.step m inp

/-- Driving an Until through a list of commits.  Outputs the final memo and,
per commit, the returned state, whether the condition was committed and
whether the series was committed. -/
def Until.run {α : Type} (m : UntilMemo α) :
    List (UntilInput α) → UntilMemo α × List (State × Bool × Bool)
  | [] => (m, [])
  | inp :: rest =>
    let r := Until.commit m inp
    let t := Until.run r.1 rest
    (t.1, (r.1.state, r.2) :: t.2)

/-- Modelled from the spec: CommitHandler aggregation (spec section 4.1) over
a list of children, each modelled as a pure per-sequence state script.  The
handler memoizes each child's last state (initially EMPTY), commits each
non-complete child once, and aggregates: evaluation if a committed child
evaluated; continuation if a committed child requested one or a child newly
became non-empty while another is still empty; empty iff every child is still
empty; complete iff every child is complete. -/
def handlerCommit (children : List (Int → State)) (memos : List State)
    (seq : Int) : List State × State :=
  let step := (children.zip memos).map (fun cm =>
    if is_complete cm.2 then (cm.2, false, cm.2) else (cm.1 seq, true, cm.2))
  let memos1 := step.map (fun x => x.1)
  let evalBit := step.any (fun x => x.2.1 && has_evaluation x.1)
  let contBit := step.any (fun x => x.2.1 && has_continuation x.1)
  let catchUp := (step.any (fun x => is_empty x.2.2 && !is_empty x.1)) &&
    (step.any (fun x => is_empty x.1))
  let completeBit := step.all (fun x => is_complete x.1)
  let emptyBit := step.all (fun x => is_empty x.1)
  (memos1, ⟨evalBit, contBit || catchUp, completeBit, emptyBit⟩)

/-- Model of std::runtime_error, as raised by the Throw test. -/
def runtimeError : Err := "runtime_error"

/-- A sample error payload used in concrete counterexamples. -/
def boomErr : Err := "boom"

/-- The lambda lifted by range (Range.hpp): given the captured optional
current value and the evaluations of the start, stop and step children
together with the states mirrored by their StateReactors, computes the
candidate c (start if no value yet, else max(start, value + step)) and either
pauses (state-only FunctionEvaluation COMPLETE or NONE, through the asserting
constructor, hence an Option) or emits c, with the COMPLETE hint when start
and stop are complete and the next candidate would reach stop.  The
candidate computation is split out as rangeCandidate. -/
def rangeCandidate (value : Option Int) (start : Int) (step : Int) : Int :=
  match value with
  | none => start
  | some v => max start (v + step)

/-- The lambda lifted by range, continued: dispatch on the candidate. -/
def rangeFn (value : Option Int) (start : Int) (startState : State)
    (stop : Int) (stopState : State) (step : Int) (stepState : State) :
    Option Int × Option (FunctionEvaluation Int) :=
  let c := rangeCandidate value start step
  if c ≥ stop then
    if is_complete startState && is_complete stopState then
      (value, FunctionEvaluation.fromState Int State.COMPLETE)
    else
      (value, FunctionEvaluation.fromState Int State.NONE)
  else
    if is_complete startState && is_complete stopState &&
        decide (c + step ≥ stop) then
      (some c, some (FunctionEvaluation.ofMaybeState (Maybe.ok c)
        State.COMPLETE))
    else
      (some c, some (FunctionEvaluation.ofMaybe (Maybe.ok c)))

/-- The state of a composed range reactor: the handler memos of its seven
children (start, its StateReactor, stop, its StateReactor, step, its
StateReactor, perpetual), the lambda's captured optional current value and
the Lift memo. -/
structure RangeSt where
  handler : List State
  capture : Option Int
  memo : LiftMemo Int
deriving DecidableEq

/-- Initial state of a composed range reactor with seven children. -/
def rangeInit : RangeSt :=
  ⟨[State.EMPTY, State.EMPTY, State.EMPTY, State.EMPTY, State.EMPTY,
    State.EMPTY, State.EMPTY], none, liftInit (Maybe.ok 0)⟩

/-- One commit of a composed range reactor.  children are the seven child
state scripts and args the values and mirrored states read by the lambda
(constant child evaluations, as in the instances below).  Follows
Lift::commit: short-circuit on a repeated sequence or a complete memo,
otherwise commit the handler, and invoke the lambda only when the trigger
condition holds, updating the capture; the assertion-failure branch of the
state-only constructor cannot occur for range (see the safety theorem) and
defaults to a state-only NONE evaluation. -/
def Range.commit (children : List (Int → State))
    (args : Int × State × Int × State × Int × State) (r : RangeSt)
    (seq : Int) : RangeSt :=
  if seq = r.memo.previousSequence ∨ is_complete r.memo.state = true then r
  else
    let h := handlerCommit children r.handler seq
    if Lift.trigger r.memo h.2 then
      let f := rangeFn r.capture args.1 args.2.1 args.2.2.1 args.2.2.2.1
        args.2.2.2.2.1 args.2.2.2.2.2
      let fe :=
        match f.2 with
        | some fe => fe
        | none => ⟨none, State.NONE⟩
      ⟨h.1, f.1, (Lift.commit r.memo seq h.2 (Except.ok fe)).1⟩
    else
      ⟨h.1, r.capture, (Lift.commit r.memo seq h.2
        (Except.ok ⟨none, State.NONE⟩)).1⟩

/-- Driving a composed range reactor through a list of sequence numbers;
outputs per commit the returned state and the value slot. -/
def Range.run (children : List (Int → State))
    (args : Int × State × Int × State × Int × State) (r : RangeSt) :
    List Int → RangeSt × List (State × Maybe Int)
  | [] => (r, [])
  | seq :: rest =>
    let r1 := Range.commit children args r seq
    let t := Range.run children args r1 rest
    (t.1, (r1.memo.state, r1.memo.value) :: t.2)

/-- Modelled from the spec: a Constant child (spec section 4.6) always
reports COMPLETE_EVALUATED from its first commit on. -/
def constantChild : Int → State := fun _ => State.COMPLETE_EVALUATED

/-- Modelled from the spec: a Perpetual child (spec section 4.6) reports
CONTINUE_EVALUATED on every commit and never completes. -/
def perpetualChild : Int → State := fun _ => State.CONTINUE_EVALUATED

/-- Modelled from the spec: the StateReactor (spec section 4.6) over a
Constant mirrors the constant's state from the first commit on; it completes
with it, hence COMPLETE_EVALUATED. -/
def stateReactorOfConstant : Int → State := fun _ => State.COMPLETE_EVALUATED

/-- The seven children of range(Constant(0), Constant(3), Constant(1)):
start, its StateReactor, stop, its StateReactor, step, its StateReactor and
the perpetual drive. -/
def rangeC6Children : List (Int → State) :=
  [constantChild, stateReactorOfConstant, constantChild,
    stateReactorOfConstant, constantChild, stateReactorOfConstant,
    perpetualChild]

/-- The lambda arguments of range(Constant(0), Constant(3), Constant(1)):
values 0, 3, 1 with all three mirrored states COMPLETE_EVALUATED. -/
def rangeC6Args : Int × State × Int × State × Int × State :=
  (0, State.COMPLETE_EVALUATED, 3, State.COMPLETE_EVALUATED, 1,
    State.COMPLETE_EVALUATED)

/-- A two-commit drive of Until in which the condition requests a
continuation before the series ever produces a value and then turns truthy:
the condition child evaluates false with a continuation request, then true;
the series child stays empty throughout. -/
def untilTruthyCexInputs : List (UntilInput Int) :=
  [⟨0, State.CONTINUE_EVALUATED, Except.ok false, State.EMPTY, Maybe.ok 0⟩,
   ⟨1, State.EVALUATED, Except.ok true, State.EMPTY, Maybe.ok 0⟩]

/-- Modelled from the spec: a stop child that keeps evaluating without ever
completing, such as a Queue that receives one push before every commit. -/
def evaluatedChild : Int → State := fun _ => State.EVALUATED

/-- The seven children of a range whose stop reactor keeps evaluating and
never completes (so the range can pause): start Constant, its StateReactor,
the evaluating stop, its StateReactor, step Constant, its StateReactor and
the perpetual drive. -/
def rangePauseChildren : List (Int → State) :=
  [constantChild, stateReactorOfConstant, evaluatedChild, evaluatedChild,
    constantChild, stateReactorOfConstant, perpetualChild]

/-- The lambda arguments for the paused range: start 0 (complete), stop 0
(still evaluating, not complete), step 1 (complete). -/
def rangePauseArgs : Int × State × Int × State × Int × State :=
  (0, State.COMPLETE_EVALUATED, 0, State.EVALUATED, 1,
    State.COMPLETE_EVALUATED)

theorem lift_commit_of_complete {α : Type} (m : LiftMemo α) (seq : Int)
    (S : State) (call : Except Err (FunctionEvaluation α))
    (h : is_complete m.state = true) :
    Lift.commit m seq S call = (m, false) := by
  simp [Lift.commit, h]

theorem lift_commit_eq_step {α : Type} (m : LiftMemo α) (seq : Int)
    (S : State) (call : Except Err (FunctionEvaluation α))
    (h1 : ¬seq = m.previousSequence) (h2 : is_complete m.state = false) :
    Lift.commit m seq S call = (Lift.step m seq S call, true) := by
  simp [Lift.commit, h1, h2]

theorem lift_run_of_complete {α : Type} (m : LiftMemo α)
    (h : is_complete m.state = true) :
    ∀ inputs, (Lift.run m inputs).1 = m ∧
      ∀ out ∈ (Lift.run m inputs).2, out = (m.state, false)
  | [] => by simp [Lift.run]
  | (seq, S, call) :: rest => by
    have hc := lift_commit_of_complete m seq S call h
    have ih := lift_run_of_complete m h rest
    simp only [Lift.run, hc, ih.1, List.mem_cons]
    refine ⟨by trivial, ?_⟩
    rintro out (rfl | hout)
    · rfl
    · exact ih.2 out hout

theorem until_commit_of_complete {α : Type} (m : UntilMemo α)
    (inp : UntilInput α) (h : is_complete m.state = true) :
    Until.commit m inp = (m, false, false) := by
  simp [Until.commit, h]

theorem until_commit_eq_step {α : Type} (m : UntilMemo α)
    (inp : UntilInput α) (h1 : ¬inp.seq = m.previousSequence)
    (h2 : is_complete m.state = false) :
    Until.commit m inp = Until.step m inp := by
  simp [Until.commit, h1, h2]

theorem until_run_of_complete {α : Type} (m : UntilMemo α)
    (h : is_complete m.state = true) :
    ∀ inputs, (Until.run m inputs).1 = m ∧
      ∀ out ∈ (Until.run m inputs).2, out = (m.state, false, false)
  | [] => by simp [Until.run]
  | inp :: rest => by
    have hc := until_commit_of_complete m inp h
    have ih := until_run_of_complete m h rest
    simp only [Until.run, hc, ih.1, List.mem_cons]
    refine ⟨by trivial, ?_⟩
    rintro out (rfl | hout)
    · rfl
    · exact ih.2 out hout

/-- C2: Completion is absorbing: for Lift and Until, once a commit returns a
state with the complete bit, every subsequent commit returns that same
complete state and commits no child; a memo whose state is already complete
is returned unchanged without committing children. -/
theorem completion_absorbing :
    (∀ (α : Type) (m : LiftMemo α) (seq : Int) (S : State)
      (call : Except Err (FunctionEvaluation α)), is_complete m.state = true →
      Lift.commit m seq S call = (m, false)) ∧
    (∀ (α : Type) (m : LiftMemo α) (seq : Int) (S : State)
      (call : Except Err (FunctionEvaluation α))
      (inputs : List (Int × State × Except Err (FunctionEvaluation α))),
      is_complete (Lift.commit m seq S call).1.state = true →
      ∀ out ∈ (Lift.run (Lift.commit m seq S call).1 inputs).2,
        out = ((Lift.commit m seq S call).1.state, false)) ∧
    (∀ (α : Type) (m : UntilMemo α) (inp : UntilInput α),
      is_complete m.state = true → Until.commit m inp = (m, false, false)) ∧
    (∀ (α : Type) (m : UntilMemo α) (inp : UntilInput α)
      (inputs : List (UntilInput α)),
      is_complete (Until.commit m inp).1.state = true →
      ∀ out ∈ (Until.run (Until.commit m inp).1 inputs).2,
        out = ((Until.commit m inp).1.state, false, false)) := by
  refine ⟨?_, ?_, ?_, ?_⟩
  · intro α m seq S call h
    exact lift_commit_of_complete m seq S call h
  · intro α m seq S call inputs h out hout
    exact (lift_run_of_complete _ h inputs).2 out hout
  · intro α m inp h
    exact until_commit_of_complete m inp h
  · intro α m inp inputs h out hout
    exact (until_run_of_complete _ h inputs).2 out hout

/-- Witness for C2: a concrete complete Lift memo and a concrete complete
Until memo are returned unchanged with no child committed. -/
theorem completion_absorbing_witness :
    Lift.commit (⟨Maybe.ok 9, State.COMPLETE, 3, false, true⟩ : LiftMemo Int)
      4 State.EVALUATED (Except.ok ⟨none, State.NONE⟩) =
      (⟨Maybe.ok 9, State.COMPLETE, 3, false, true⟩, false) ∧
    Until.commit
      (⟨false, Maybe.ok 9, State.EVALUATED, State.COMPLETE, 3⟩ :
        UntilMemo Int)
      ⟨4, State.EVALUATED, Except.ok true, State.EVALUATED, Maybe.ok 1⟩ =
      (⟨false, Maybe.ok 9, State.EVALUATED, State.COMPLETE, 3⟩, false,
        false) :=
  ⟨completion_absorbing.1 Int ⟨Maybe.ok 9, State.COMPLETE, 3, false, true⟩ 4
      State.EVALUATED (Except.ok ⟨none, State.NONE⟩) (by decide),
    completion_absorbing.2.2.1 Int
      ⟨false, Maybe.ok 9, State.EVALUATED, State.COMPLETE, 3⟩
      ⟨4, State.EVALUATED, Except.ok true, State.EVALUATED, Maybe.ok 1⟩
      (by decide)⟩

/-- C6: the composed reactor range(Constant(0), Constant(3), Constant(1)),
driven with strictly increasing sequences 0,1,2,..., evaluates to 0 then 1
then 2; the commit producing 2 returns COMPLETE_EVALUATED, and afterwards the
whole reactor state (handler memos, capture and Lift memo) stays unchanged,
so no further values are produced. -/
theorem range_zero_three_trace :
    (Range.run rangeC6Children rangeC6Args rangeInit [0, 1, 2, 3, 4]).2 =
      [(State.CONTINUE_EVALUATED, Maybe.ok 0),
       (State.CONTINUE_EVALUATED, Maybe.ok 1),
       (State.COMPLETE_EVALUATED, Maybe.ok 2),
       (State.COMPLETE_EVALUATED, Maybe.ok 2),
       (State.COMPLETE_EVALUATED, Maybe.ok 2)] ∧
    (Range.run rangeC6Children rangeC6Args rangeInit [0, 1, 2, 3, 4]).1 =
      (Range.run rangeC6Children rangeC6Args rangeInit [0, 1, 2]).1 := by
  decide

/-- C10: the state-only FunctionEvaluation constructor asserts that its state
carries no evaluation bit; the assertion passes exactly on states without the
bit, COMPLETE and NONE both lack it, and every state-only evaluation that the
range lambda constructs goes through with the assertion satisfied. -/
theorem function_evaluation_state_ctor_safe :
    (∀ (α : Type) (s : State), has_evaluation s = false →
      FunctionEvaluation.fromState α s = some ⟨none, s⟩) ∧
    (∀ (α : Type) (s : State), has_evaluation s = true →
      FunctionEvaluation.fromState α s = none) ∧
    (has_evaluation State.COMPLETE = false ∧
      has_evaluation State.NONE = false) ∧
    (∀ (value : Option Int) (start stop step : Int) (ss es ts : State),
      ((rangeFn value start ss stop es step ts).2).isSome = true) := by
  refine ⟨?_, ?_, by decide, ?_⟩
  · intro α s h
    simp [FunctionEvaluation.fromState, h]
  · intro α s h
    simp [FunctionEvaluation.fromState, h]
  · intro value start stop step ss es ts
    simp only [rangeFn]
    split
    · split
      · simp [FunctionEvaluation.fromState, has_evaluation, State.COMPLETE]
      · simp [FunctionEvaluation.fromState, has_evaluation, State.NONE]
    · split
      · simp
      · simp

/-- Witness for C10: the constructor precondition at the concrete state
COMPLETE used by range. -/
theorem function_evaluation_state_ctor_safe_witness :
    FunctionEvaluation.fromState Int State.COMPLETE =
      some ⟨none, State.COMPLETE⟩ :=
  function_evaluation_state_ctor_safe.1 Int State.COMPLETE (by decide)

/-- C1 fails as stated: with a single Constant child the aggregated state S
is COMPLETE_EVALUATED (complete), the lifted function produces a value with
no completion of its own but with a continuation hint, and the commit returns
CONTINUE_EVALUATED rather than the COMPLETE_EVALUATED the claim predicts. -/
theorem lift_value_merge_counterexample :
    (handlerCommit [constantChild] [State.EMPTY] 0).2 =
      State.COMPLETE_EVALUATED ∧
    is_complete State.COMPLETE_EVALUATED = true ∧
    (FunctionEvaluation.ofMaybeState (Maybe.ok (5 : Int))
      State.CONTINUE).value = some (Maybe.ok 5) ∧
    is_complete (FunctionEvaluation.ofMaybeState (Maybe.ok (5 : Int))
      State.CONTINUE).state = false ∧
    (Lift.commit (liftInit (Maybe.ok 0)) 0 State.COMPLETE_EVALUATED
      (Except.ok (FunctionEvaluation.ofMaybeState (Maybe.ok 5)
        State.CONTINUE))).1.state = State.CONTINUE_EVALUATED ∧
    State.CONTINUE_EVALUATED ≠ State.COMPLETE_EVALUATED := by
  decide

/-- C1 (amended): for a Lift commit that is not short-circuited, whose
trigger condition holds and whose invocation carries a value but neither
completion nor the empty marker of its own, the returned state is
CONTINUE_EVALUATED when the invocation itself or the aggregated child state S
carries the continuation bit, otherwise COMPLETE_EVALUATED when S is
complete, otherwise EVALUATED.  (The claim as stated gives completion of S
priority over continuation and ignores the invocation's own continuation
hint; the code checks continuation first.) -/
theorem lift_value_merge_amended {α : Type} (m : LiftMemo α) (seq : Int)
    (S : State) (fe : FunctionEvaluation α)
    (h1 : ¬seq = m.previousSequence) (h2 : is_complete m.state = false)
    (h3 : Lift.trigger m S = true) (h4 : has_evaluation fe.state = true)
    (h5 : is_complete fe.state = false) (h6 : is_empty fe.state = false) :
    (Lift.commit m seq S (Except.ok fe)).1.state =
      if has_continuation fe.state || has_continuation S then
        State.CONTINUE_EVALUATED
      else if is_complete S then State.COMPLETE_EVALUATED
      else State.EVALUATED := by
  rw [lift_commit_eq_step m seq S _ h1 h2]
  obtain ⟨fv, fs⟩ := fe
  obtain ⟨f1, f2, f3, f4⟩ := fs
  simp only [has_evaluation] at h4
  simp only [is_complete] at h5
  simp only [is_empty] at h6
  subst h4
  subst h5
  subst h6
  obtain ⟨s1, s2, s3, s4⟩ := S
  simp only [Lift.step, Lift.invoke, h3, if_true]
  cases f2 <;> cases s1 <;> cases s2 <;> cases s3 <;> cases s4 <;>
    simp [has_continuation, is_complete, is_empty, has_evaluation, combine,
      State.CONTINUE_EVALUATED, State.COMPLETE_EVALUATED, State.EVALUATED,
      State.NONE, State.CONTINUE, State.COMPLETE, State.COMPLETE_EMPTY,
      State.EMPTY]

/-- C3: a lifted function that raises during Lift's invocation makes commit
return normally with the evaluation bit set and the exception captured in the
value slot as a deferred error, surfacing only through eval; in particular a
Throw<int>(runtime_error) modelled by the zero-argument Lift whose function
raises returns COMPLETE_EVALUATED on its first commit with the value slot
holding the error, and eval re-raises it. -/
theorem lift_exception_deferred :
    (∀ (α : Type) (m : LiftMemo α) (seq : Int) (S : State) (e : Err),
      ¬seq = m.previousSequence → is_complete m.state = false →
      Lift.trigger m S = true →
      (Lift.commit m seq S (Except.error e)).1.value = Maybe.err e ∧
      has_evaluation (Lift.commit m seq S (Except.error e)).1.state = true) ∧
    (Lift0.commit (lift0Init (Maybe.ok (0 : Int))) 0
      (Except.error runtimeError) =
      ⟨Maybe.err runtimeError, State.COMPLETE_EVALUATED⟩) ∧
    ((Maybe.err runtimeError : Maybe Int).get = Except.error runtimeError) := by
  refine ⟨?_, by decide, rfl⟩
  intro α m seq S e h1 h2 h3
  rw [lift_commit_eq_step m seq S _ h1 h2]
  obtain ⟨s1, s2, s3, s4⟩ := S
  simp only [Lift.step, Lift.invoke, h3, if_true]
  cases s1 <;> cases s2 <;> cases s3 <;> cases s4 <;>
    simp [has_continuation, is_complete, is_empty, has_evaluation, combine,
      State.CONTINUE_EVALUATED, State.COMPLETE_EVALUATED, State.EVALUATED,
      State.NONE, State.CONTINUE, State.COMPLETE, State.COMPLETE_EMPTY,
      State.EMPTY]

/-- Helper: a single Lift commit whose returned state lacks both the
evaluation and the complete bit leaves the value slot unchanged, provided the
function-call outcome is well formed (a value only together with an
evaluation-bit state). -/
theorem lift_value_frame {α : Type} (m : LiftMemo α) (seq : Int) (S : State)
    (call : Except Err (FunctionEvaluation α))
    (hwf : ∀ fe, call = Except.ok fe → fe.value.isSome = true →
      has_evaluation fe.state = true)
    (h1 : has_evaluation (Lift.commit m seq S call).1.state = false)
    (h2 : is_complete (Lift.commit m seq S call).1.state = false) :
    (Lift.commit m seq S call).1.value = m.value := by
  by_cases hg : seq = m.previousSequence ∨ is_complete m.state = true
  · simp [Lift.commit, hg]
  · push_neg at hg
    rw [lift_commit_eq_step m seq S call hg.1 (by simpa using hg.2)] at h1 h2 ⊢
    by_cases ht : Lift.trigger m S = true
    · match call with
      | Except.error e =>
        exfalso
        simp only [Lift.step, Lift.invoke, ht, if_true] at h1 h2
        obtain ⟨s1, s2, s3, s4⟩ := S
        cases s1 <;> cases s2 <;> cases s3 <;> cases s4 <;>
          simp_all [has_continuation, is_complete, is_empty, has_evaluation,
            combine, State.CONTINUE_EVALUATED, State.COMPLETE_EVALUATED,
            State.EVALUATED, State.NONE, State.CONTINUE, State.COMPLETE,
            State.COMPLETE_EMPTY, State.EMPTY]
      | Except.ok fe =>
        match hfv : fe.value with
        | none =>
          simp only [Lift.step, Lift.invoke, ht, if_true, hfv]
          split
          · rfl
          · split <;> rfl
        | some v =>
          exfalso
          have hev : has_evaluation fe.state = true :=
            hwf fe rfl (by simp [hfv])
          simp only [Lift.step, Lift.invoke, ht, if_true, hfv] at h1 h2
          obtain ⟨fv, fs⟩ := fe
          obtain ⟨f1, f2, f3, f4⟩ := fs
          simp only [has_evaluation] at hev
          subst hev
          obtain ⟨s1, s2, s3, s4⟩ := S
          cases f2 <;> cases f3 <;> cases f4 <;>
            cases s1 <;> cases s2 <;> cases s3 <;> cases s4 <;>
              simp_all [has_continuation, is_complete, is_empty,
                has_evaluation, combine, State.CONTINUE_EVALUATED,
                State.COMPLETE_EVALUATED, State.EVALUATED, State.NONE,
                State.CONTINUE, State.COMPLETE, State.COMPLETE_EMPTY,
                State.EMPTY]
    · simp [Lift.step, ht]

/-- Helper: the single-commit frame property extended over a run. -/
theorem lift_run_value_frame {α : Type} :
    ∀ (inputs : List (Int × State × Except Err (FunctionEvaluation α)))
      (m : LiftMemo α),
      (∀ i ∈ inputs, ∀ fe, i.2.2 = Except.ok fe → fe.value.isSome = true →
        has_evaluation fe.state = true) →
      (∀ out ∈ (Lift.run m inputs).2,
        has_evaluation out.1 = false ∧ is_complete out.1 = false) →
      (Lift.run m inputs).1.value = m.value
  | [], m => by
    intro hwf hout
    simp [Lift.run]
  | (seq, S, call) :: rest, m => by
    intro hwf hout
    have hout0 := hout ((Lift.commit m seq S call).1.state,
      (Lift.commit m seq S call).2) (by simp [Lift.run])
    have hfr := lift_value_frame m seq S call
      (hwf (seq, S, call) (List.mem_cons_self _ _)) hout0.1 hout0.2
    have ih := lift_run_value_frame rest (Lift.commit m seq S call).1
      (fun i hi => hwf i (List.mem_cons_of_mem _ hi))
      (fun out ho => hout out (by simp [Lift.run]; right; exact ho))
    calc (Lift.run m ((seq, S, call) :: rest)).1.value
        = (Lift.run (Lift.commit m seq S call).1 rest).1.value := by
          simp [Lift.run]
      _ = (Lift.commit m seq S call).1.value := ih
      _ = m.value := hfr

/-- C9: value persistence for Lift: starting from a memo whose last commit
reported the evaluation bit (its value slot holds v), any run of further
commits whose returned states all lack both the evaluation bit and the
complete bit leaves the value slot unchanged, so eval() still yields v.  The
function-call outcomes are required to be well formed (a value is only
carried with an evaluation-bit state, as every FunctionEvaluation constructor
guarantees). -/
theorem lift_value_persistence {α : Type} (m1 : LiftMemo α)
    (inputs : List (Int × State × Except Err (FunctionEvaluation α)))
    (h0 : has_evaluation m1.state = true)
    (hwf : ∀ i ∈ inputs, ∀ fe, i.2.2 = Except.ok fe →
      fe.value.isSome = true → has_evaluation fe.state = true)
    (hout : ∀ out ∈ (Lift.run m1 inputs).2,
      has_evaluation out.1 = false ∧ is_complete out.1 = false) :
    (Lift.run m1 inputs).1.value = m1.value ∧
    (Lift.run m1 inputs).1.value.get = m1.value.get := by
  have h := lift_run_value_frame inputs m1 hwf hout
  exact ⟨h, by rw [h]⟩

/-- Witness for the amended C1 at a concrete plain evaluation. -/
theorem lift_value_merge_amended_witness :
    (Lift.commit (liftInit (Maybe.ok (0 : Int))) 0 State.EVALUATED
      (Except.ok (FunctionEvaluation.ofMaybe (Maybe.ok 7)))).1.state =
      (if has_continuation
          (FunctionEvaluation.ofMaybe (Maybe.ok (7 : Int))).state ||
          has_continuation State.EVALUATED then State.CONTINUE_EVALUATED
       else if is_complete State.EVALUATED then State.COMPLETE_EVALUATED
       else State.EVALUATED) :=
  lift_value_merge_amended (liftInit (Maybe.ok 0)) 0 State.EVALUATED
    (FunctionEvaluation.ofMaybe (Maybe.ok 7)) (by decide) (by decide)
    (by decide) (by decide) (by decide) (by decide)

/-- Witness for C3 at a concrete raising commit. -/
theorem lift_exception_deferred_witness :
    (Lift.commit (liftInit (Maybe.ok (0 : Int))) 0 State.EVALUATED
      (Except.error boomErr)).1.value = Maybe.err boomErr ∧
    has_evaluation (Lift.commit (liftInit (Maybe.ok (0 : Int))) 0
      State.EVALUATED (Except.error boomErr)).1.state = true :=
  lift_exception_deferred.1 Int (liftInit (Maybe.ok 0)) 0 State.EVALUATED
    boomErr (by decide) (by decide) (by decide)

/-- Witness for C9: one further non-evaluating commit leaves the value 5 in
place. -/
theorem lift_value_persistence_witness :
    (Lift.run (⟨Maybe.ok 5, State.EVALUATED, 0, false, true⟩ : LiftMemo Int)
      [(1, State.NONE, Except.ok ⟨none, State.NONE⟩)]).1.value =
      Maybe.ok 5 ∧
    (Lift.run (⟨Maybe.ok 5, State.EVALUATED, 0, false, true⟩ : LiftMemo Int)
      [(1, State.NONE, Except.ok ⟨none, State.NONE⟩)]).1.value.get =
      (Maybe.ok (5 : Int)).get :=
  lift_value_persistence ⟨Maybe.ok 5, State.EVALUATED, 0, false, true⟩
    [(1, State.NONE, Except.ok ⟨none, State.NONE⟩)] (by decide)
    (by
      intro i hi fe hfe hs
      simp only [List.mem_singleton] at hi
      subst hi
      simp only [Except.ok.injEq] at hfe
      subst hfe
      simp at hs)
    (by decide)

/-- C4 (amended): on the first commit at which the condition yields a new
truthy evaluation, the series is destroyed and not committed in that commit
nor in any later one, and Until's state becomes COMPLETE_EMPTY when its
memoized state is still empty at that commit and COMPLETE otherwise.  (The
claim as stated equates non-empty with having produced a value, but a
continuation merged by combine into an otherwise empty state drops the empty
marker without any value having been produced.) -/
theorem until_truthy_amended {α : Type} (m : UntilMemo α)
    (inp : UntilInput α) (inputs : List (UntilInput α))
    (h1 : ¬inp.seq = m.previousSequence) (h2 : is_complete m.state = false)
    (h3 : is_complete m.conditionState = false)
    (h4 : condTrigger m inp = true) (h5 : inp.condEval = Except.ok true) :
    (Until.commit m inp).1.series = false ∧
    (Until.commit m inp).1.state =
      (if is_empty m.state then State.COMPLETE_EMPTY else State.COMPLETE) ∧
    (Until.commit m inp).2.2 = false ∧
    (∀ out ∈ (Until.run (Until.commit m inp).1 inputs).2,
      out.2.2 = false) := by
  rw [until_commit_eq_step m inp h1 h2]
  have hstep : Until.step m inp =
      ({ m with
        series := false,
        state := if is_empty m.state then State.COMPLETE_EMPTY
          else State.COMPLETE,
        conditionState := inp.condState,
        previousSequence := inp.seq }, true, false) := by
    simp only [Until.step, Until.condPhase, Until.seriesPhase, h3, h4, h5]
    simp
  rw [hstep]
  refine ⟨rfl, rfl, rfl, ?_⟩
  intro out hout
  have hcomp : is_complete (if is_empty m.state then State.COMPLETE_EMPTY
      else State.COMPLETE) = true := by
    split <;> decide
  have := (until_run_of_complete _ (by simpa using hcomp) inputs).2 out hout
  rw [this]

/-- Helper: the condition phase of Until, when the condition is not complete
and does not read truthy, commits the condition, preserves series and state,
and memoizes the condition state. -/
theorem until_cond_phase_not_truthy {α : Type} (m : UntilMemo α)
    (inp : UntilInput α) (h3 : is_complete m.conditionState = false)
    (h5 : ¬(condTrigger m inp = true ∧ inp.condEval = Except.ok true)) :
    (Until.condPhase m inp).2 = true ∧
    (Until.condPhase m inp).1.series = m.series ∧
    (Until.condPhase m inp).1.state = m.state ∧
    (Until.condPhase m inp).1.conditionState = inp.condState := by
  simp only [Until.condPhase, h3]
  by_cases hct : condTrigger m inp = true
  · cases hce : inp.condEval with
    | ok b =>
      cases b
      · simp [hct, hce]
      · exact absurd ⟨hct, hce⟩ h5
    | error e => simp [hct, hce]
  · simp [hct]

/-- Helper: the condition phase of Until, when reading the condition raises,
captures the error into the value slot and changes nothing else besides the
memoized condition state. -/
theorem until_cond_phase_error {α : Type} (m : UntilMemo α)
    (inp : UntilInput α) (e : Err)
    (h3 : is_complete m.conditionState = false)
    (h4 : condTrigger m inp = true) (h5 : inp.condEval = Except.error e) :
    (Until.condPhase m inp).1 =
      { m with value := Maybe.err e, conditionState := inp.condState } := by
  simp [Until.condPhase, h3, h4, h5]

/-- Helper: full characterization of the series phase of Until while the
series exists: the value is adopted exactly on a trigger, the evaluation bit
equals the trigger, the complete bit comes only from the series, and the
continuation bit aggregates condition and series continuations only when the
series is not complete. -/
theorem until_series_phase_spec {α : Type} (m1 : UntilMemo α)
    (inp : UntilInput α) (h : m1.series = true) :
    ((seriesTrigger m1 inp = true →
      (Until.seriesPhase m1 inp).1.value = inp.seriesVal) ∧
     (seriesTrigger m1 inp = false →
      (Until.seriesPhase m1 inp).1.value = m1.value) ∧
     has_evaluation (Until.seriesPhase m1 inp).1.state =
       seriesTrigger m1 inp ∧
     is_complete (Until.seriesPhase m1 inp).1.state =
       is_complete inp.seriesState ∧
     has_continuation (Until.seriesPhase m1 inp).1.state =
       (!is_complete inp.seriesState &&
         (has_continuation m1.conditionState ||
          has_continuation inp.seriesState)) ∧
     (Until.seriesPhase m1 inp).2 = true) := by
  simp only [Until.seriesPhase, h, if_true]
  by_cases hst : seriesTrigger m1 inp = true <;>
    by_cases hme : is_empty m1.state = true <;>
      by_cases hsc : is_complete inp.seriesState = true <;>
        by_cases hcc : (has_continuation m1.conditionState ||
          has_continuation inp.seriesState) = true <;>
          simp_all [combine, has_evaluation, is_complete, has_continuation,
            is_empty, State.EVALUATED, State.EMPTY, State.NONE,
            State.COMPLETE, State.CONTINUE]

/-- C5 (amended): on a commit where the condition has not terminated Until
and the series still exists, the series' evaluation is adopted as the value
exactly on a series trigger, the complete bit of the returned state is taken
only from the series, and the continuation bit aggregates the continuation
bits of condition and series only when the series has not completed; when the
series completes, any continuation bit is dropped.  (The claim as stated says
the continuation bits are always aggregated.) -/
theorem until_series_aggregation_amended {α : Type} (m : UntilMemo α)
    (inp : UntilInput α)
    (h1 : ¬inp.seq = m.previousSequence) (h2 : is_complete m.state = false)
    (h3 : is_complete m.conditionState = false) (h4 : m.series = true)
    (h5 : ¬(condTrigger m inp = true ∧ inp.condEval = Except.ok true)) :
    ((seriesTrigger m inp = true →
      (Until.commit m inp).1.value = inp.seriesVal) ∧
     has_evaluation (Until.commit m inp).1.state = seriesTrigger m inp ∧
     is_complete (Until.commit m inp).1.state =
       is_complete inp.seriesState ∧
     has_continuation (Until.commit m inp).1.state =
       (!is_complete inp.seriesState &&
         (has_continuation inp.condState ||
          has_continuation inp.seriesState))) := by
  rw [until_commit_eq_step m inp h1 h2]
  have hcp := until_cond_phase_not_truthy m inp h3 h5
  have hser : (Until.condPhase m inp).1.series = true := by
    rw [hcp.2.1]; exact h4
  have hsp := until_series_phase_spec (Until.condPhase m inp).1 inp hser
  have htr : seriesTrigger (Until.condPhase m inp).1 inp =
      seriesTrigger m inp := by
    simp [seriesTrigger, hcp.2.2.1]
  simp only [Until.step]
  refine ⟨?_, ?_, ?_, ?_⟩
  · intro hs
    simpa using hsp.1 (by rw [htr]; exact hs)
  · have h := hsp.2.2.1
    rw [htr] at h
    simpa using h
  · simpa using hsp.2.2.2.1
  · have h := hsp.2.2.2.2.1
    rw [hcp.2.2.2] at h
    simpa using h

/-- C8 (amended): when reading the condition raises, the error is captured
into Until's value slot and the commit returns normally, but the capture does
not set the evaluation bit: the returned state carries the evaluation bit
exactly when the series itself triggers an evaluation in the same commit, in
which case the series' value overwrites the captured error.  (The claim as
stated says the evaluation bit is set.) -/
theorem until_condition_error_amended {α : Type} (m : UntilMemo α)
    (inp : UntilInput α) (e : Err)
    (h1 : ¬inp.seq = m.previousSequence) (h2 : is_complete m.state = false)
    (h3 : is_complete m.conditionState = false)
    (h4 : condTrigger m inp = true) (h5 : inp.condEval = Except.error e)
    (h6 : m.series = true) :
    ((seriesTrigger m inp = false →
      (Until.commit m inp).1.value = Maybe.err e ∧
      has_evaluation (Until.commit m inp).1.state = false) ∧
     (seriesTrigger m inp = true →
      (Until.commit m inp).1.value = inp.seriesVal ∧
      has_evaluation (Until.commit m inp).1.state = true)) := by
  rw [until_commit_eq_step m inp h1 h2]
  have hcp := until_cond_phase_error m inp e h3 h4 h5
  have hser : (Until.condPhase m inp).1.series = true := by
    rw [hcp]; exact h6
  have hsp := until_series_phase_spec (Until.condPhase m inp).1 inp hser
  have htr : seriesTrigger (Until.condPhase m inp).1 inp =
      seriesTrigger m inp := by
    rw [hcp]
    simp [seriesTrigger]
  have hval : (Until.condPhase m inp).1.value = Maybe.err e := by
    rw [hcp]
  simp only [Until.step]
  refine ⟨?_, ?_⟩
  · intro hs
    have hv := hsp.2.1 (by rw [htr]; exact hs)
    have hev := hsp.2.2.1
    rw [htr, hs] at hev
    exact ⟨by simpa [hval] using hv, by simpa using hev⟩
  · intro hs
    have hv := hsp.1 (by rw [htr]; exact hs)
    have hev := hsp.2.2.1
    rw [htr, hs] at hev
    exact ⟨by simpa using hv, by simpa using hev⟩

/-- C7 (amended): for a range commit whose candidate c satisfies c >= stop,
when both start and stop are complete the lambda yields a state-only COMPLETE
evaluation and the reactor's state becomes complete with no evaluation
(COMPLETE or COMPLETE_EMPTY) with the value slot untouched; otherwise the
lambda yields a state-only NONE evaluation but, the aggregated child state
carrying the perpetual child's continuation, the commit returns CONTINUE
(pausing with no value while requesting re-commits) until stop moves.  (The
claim as stated says the commit returns NONE with no continuation.) -/
theorem range_pause_amended (value : Option Int) (start stop step : Int)
    (ss es ts : State) (m : LiftMemo Int) (seq : Int) (S : State)
    (h1 : ¬seq = m.previousSequence) (h2 : is_complete m.state = false)
    (h3 : Lift.trigger m S = true)
    (h4 : rangeCandidate value start step ≥ stop) :
    (rangeFn value start ss stop es step ts).1 = value ∧
    ((is_complete ss && is_complete es) = true →
      (rangeFn value start ss stop es step ts).2 =
        some ⟨none, State.COMPLETE⟩ ∧
      (Lift.commit m seq S (Except.ok ⟨none, State.COMPLETE⟩)).1.state =
        (if m.hadEvaluation then State.COMPLETE else State.COMPLETE_EMPTY) ∧
      has_evaluation (Lift.commit m seq S
        (Except.ok ⟨none, State.COMPLETE⟩)).1.state = false ∧
      (Lift.commit m seq S (Except.ok ⟨none, State.COMPLETE⟩)).1.value =
        m.value) ∧
    ((is_complete ss && is_complete es) = false →
      is_complete S = false → has_continuation S = true →
      (rangeFn value start ss stop es step ts).2 =
        some ⟨none, State.NONE⟩ ∧
      (Lift.commit m seq S (Except.ok ⟨none, State.NONE⟩)).1.state =
        State.CONTINUE ∧
      (Lift.commit m seq S (Except.ok ⟨none, State.NONE⟩)).1.value =
        m.value) := by
  refine ⟨?_, ?_, ?_⟩
  · simp only [rangeFn]
    rw [if_pos h4]
    split <;> rfl
  · intro hce
    refine ⟨?_, ?_, ?_, ?_⟩
    · simp only [rangeFn]
      rw [if_pos h4, if_pos hce]
      simp [FunctionEvaluation.fromState, has_evaluation, State.COMPLETE]
    · rw [lift_commit_eq_step m seq S _ h1 h2]
      simp only [Lift.step, Lift.invoke, h3, if_true]
      cases hhe : m.hadEvaluation <;>
        simp [hhe, is_complete, has_evaluation, State.COMPLETE, State.NONE,
          State.COMPLETE_EMPTY, State.COMPLETE_EVALUATED]
    · rw [lift_commit_eq_step m seq S _ h1 h2]
      simp only [Lift.step, Lift.invoke, h3, if_true]
      cases hhe : m.hadEvaluation <;>
        simp [hhe, is_complete, has_evaluation, State.COMPLETE, State.NONE,
          State.COMPLETE_EMPTY, State.COMPLETE_EVALUATED]
    · rw [lift_commit_eq_step m seq S _ h1 h2]
      simp only [Lift.step, Lift.invoke, h3, if_true]
      simp [is_complete, has_evaluation, State.COMPLETE, State.NONE,
        State.COMPLETE_EMPTY, State.COMPLETE_EVALUATED]
  · intro hce hSc hSk
    simp only [is_complete] at hSc
    simp only [has_continuation] at hSk
    refine ⟨?_, ?_, ?_⟩
    · simp only [rangeFn]
      rw [if_pos h4, if_neg]
      · simp [FunctionEvaluation.fromState, has_evaluation, State.NONE]
      · simp [hce]
    · rw [lift_commit_eq_step m seq S _ h1 h2]
      simp only [Lift.step, Lift.invoke, h3, if_true]
      simp [hSc, hSk, is_complete, has_continuation, has_evaluation,
        State.NONE, State.CONTINUE]
    · rw [lift_commit_eq_step m seq S _ h1 h2]
      simp only [Lift.step, Lift.invoke, h3, if_true]

/-- C4 fails as stated: a condition that requests a continuation before the
series ever produces makes combine drop the empty marker, and a later truthy
condition then completes with COMPLETE instead of the COMPLETE_EMPTY the
claim predicts for a reactor that never produced a value (no output of the
run carries the evaluation bit). -/
theorem until_truthy_counterexample :
    (Until.run (untilInit (Maybe.ok (0 : Int))) untilTruthyCexInputs).2 =
      [(State.CONTINUE, true, true), (State.COMPLETE, true, false)] ∧
    (∀ out ∈ (Until.run (untilInit (Maybe.ok (0 : Int)))
      untilTruthyCexInputs).2, has_evaluation out.1 = false) ∧
    State.COMPLETE ≠ State.COMPLETE_EMPTY := by
  decide

/-- Witness for the amended C4 at a concrete immediately-truthy condition. -/
theorem until_truthy_amended_witness :
    (Until.commit (untilInit (Maybe.ok (0 : Int)))
      ⟨0, State.EVALUATED, Except.ok true, State.EMPTY,
        Maybe.ok 0⟩).1.series = false ∧
    (Until.commit (untilInit (Maybe.ok (0 : Int)))
      ⟨0, State.EVALUATED, Except.ok true, State.EMPTY,
        Maybe.ok 0⟩).1.state =
      (if is_empty (untilInit (Maybe.ok (0 : Int))).state then
        State.COMPLETE_EMPTY else State.COMPLETE) ∧
    (Until.commit (untilInit (Maybe.ok (0 : Int)))
      ⟨0, State.EVALUATED, Except.ok true, State.EMPTY,
        Maybe.ok 0⟩).2.2 = false ∧
    (∀ out ∈ (Until.run (Until.commit (untilInit (Maybe.ok (0 : Int)))
      ⟨0, State.EVALUATED, Except.ok true, State.EMPTY,
        Maybe.ok 0⟩).1 untilTruthyCexInputs).2, out.2.2 = false) :=
  until_truthy_amended (untilInit (Maybe.ok 0))
    ⟨0, State.EVALUATED, Except.ok true, State.EMPTY, Maybe.ok 0⟩
    untilTruthyCexInputs (by decide) (by decide) (by decide) (by decide)
    rfl

/-- C5 fails as stated: with a condition requesting a continuation and a
series completing with an evaluation in the same commit, the returned state
is COMPLETE_EVALUATED without the continuation bit, although the claim's
aggregation of the two children's continuation bits is true. -/
theorem until_series_aggregation_counterexample :
    (Until.commit (untilInit (Maybe.ok (0 : Int)))
      ⟨0, State.CONTINUE_EVALUATED, Except.ok false,
        State.COMPLETE_EVALUATED, Maybe.ok 7⟩).1.state =
      State.COMPLETE_EVALUATED ∧
    has_continuation (Until.commit (untilInit (Maybe.ok (0 : Int)))
      ⟨0, State.CONTINUE_EVALUATED, Except.ok false,
        State.COMPLETE_EVALUATED, Maybe.ok 7⟩).1.state = false ∧
    (has_continuation State.CONTINUE_EVALUATED ||
      has_continuation State.COMPLETE_EVALUATED) = true ∧
    (Until.commit (untilInit (Maybe.ok (0 : Int)))
      ⟨0, State.CONTINUE_EVALUATED, Except.ok false,
        State.COMPLETE_EVALUATED, Maybe.ok 7⟩).1.value = Maybe.ok 7 := by
  decide

/-- Witness for the amended C5 at a concrete evaluating series. -/
theorem until_series_aggregation_amended_witness :
    ((seriesTrigger (untilInit (Maybe.ok (0 : Int)))
      ⟨0, State.EVALUATED, Except.ok false, State.EVALUATED,
        Maybe.ok 3⟩ = true →
      (Until.commit (untilInit (Maybe.ok (0 : Int)))
        ⟨0, State.EVALUATED, Except.ok false, State.EVALUATED,
          Maybe.ok 3⟩).1.value = Maybe.ok 3) ∧
     has_evaluation (Until.commit (untilInit (Maybe.ok (0 : Int)))
        ⟨0, State.EVALUATED, Except.ok false, State.EVALUATED,
          Maybe.ok 3⟩).1.state =
       seriesTrigger (untilInit (Maybe.ok (0 : Int)))
        ⟨0, State.EVALUATED, Except.ok false, State.EVALUATED,
          Maybe.ok 3⟩ ∧
     is_complete (Until.commit (untilInit (Maybe.ok (0 : Int)))
        ⟨0, State.EVALUATED, Except.ok false, State.EVALUATED,
          Maybe.ok 3⟩).1.state = is_complete State.EVALUATED ∧
     has_continuation (Until.commit (untilInit (Maybe.ok (0 : Int)))
        ⟨0, State.EVALUATED, Except.ok false, State.EVALUATED,
          Maybe.ok 3⟩).1.state =
       (!is_complete State.EVALUATED &&
         (has_continuation State.EVALUATED ||
          has_continuation State.EVALUATED))) :=
  until_series_aggregation_amended (untilInit (Maybe.ok 0))
    ⟨0, State.EVALUATED, Except.ok false, State.EVALUATED, Maybe.ok 3⟩
    (by decide) (by decide) (by decide) (by decide)
    (by intro h; simpa using h.2)

/-- C8 fails as stated: a condition whose reading raises while the series
produces nothing leaves the captured error in the value slot but returns a
state without the evaluation bit. -/
theorem until_condition_error_counterexample :
    (Until.commit (untilInit (Maybe.ok (0 : Int)))
      ⟨0, State.EVALUATED, Except.error boomErr, State.EMPTY,
        Maybe.ok 0⟩).1.value = Maybe.err boomErr ∧
    has_evaluation (Until.commit (untilInit (Maybe.ok (0 : Int)))
      ⟨0, State.EVALUATED, Except.error boomErr, State.EMPTY,
        Maybe.ok 0⟩).1.state = false := by
  decide

/-- Witness for the amended C8 at a concrete raising condition. -/
theorem until_condition_error_amended_witness :
    ((seriesTrigger (untilInit (Maybe.ok (0 : Int)))
      ⟨0, State.EVALUATED, Except.error boomErr, State.EMPTY,
        Maybe.ok 0⟩ = false →
      (Until.commit (untilInit (Maybe.ok (0 : Int)))
        ⟨0, State.EVALUATED, Except.error boomErr, State.EMPTY,
          Maybe.ok 0⟩).1.value = Maybe.err boomErr ∧
      has_evaluation (Until.commit (untilInit (Maybe.ok (0 : Int)))
        ⟨0, State.EVALUATED, Except.error boomErr, State.EMPTY,
          Maybe.ok 0⟩).1.state = false) ∧
     (seriesTrigger (untilInit (Maybe.ok (0 : Int)))
      ⟨0, State.EVALUATED, Except.error boomErr, State.EMPTY,
        Maybe.ok 0⟩ = true →
      (Until.commit (untilInit (Maybe.ok (0 : Int)))
        ⟨0, State.EVALUATED, Except.error boomErr, State.EMPTY,
          Maybe.ok 0⟩).1.value = Maybe.ok 0 ∧
      has_evaluation (Until.commit (untilInit (Maybe.ok (0 : Int)))
        ⟨0, State.EVALUATED, Except.error boomErr, State.EMPTY,
          Maybe.ok 0⟩).1.state = true)) :=
  until_condition_error_amended (untilInit (Maybe.ok 0))
    ⟨0, State.EVALUATED, Except.error boomErr, State.EMPTY, Maybe.ok 0⟩
    boomErr (by decide) (by decide) (by decide) (by decide) rfl (by decide)

/-- C7 fails as stated: a paused range whose stop child keeps evaluating
returns CONTINUE, not NONE, both at the level of the merge and for the fully
composed reactor with its perpetual child. -/
theorem range_pause_counterexample :
    rangeCandidate none 0 1 ≥ 0 ∧
    (is_complete State.COMPLETE_EVALUATED && is_complete State.EVALUATED)
      = false ∧
    rangeFn none 0 State.COMPLETE_EVALUATED 0 State.EVALUATED 1
      State.COMPLETE_EVALUATED = (none, some ⟨none, State.NONE⟩) ∧
    (Range.run rangePauseChildren rangePauseArgs rangeInit [0]).2 =
      [(State.CONTINUE, Maybe.ok 0)] ∧
    has_continuation State.CONTINUE = true ∧
    has_evaluation State.CONTINUE = false ∧
    State.CONTINUE ≠ State.NONE := by
  decide

/-- Witness for the amended C7 at the concrete paused range instance. -/
theorem range_pause_amended_witness :
    (rangeFn none 0 State.COMPLETE_EVALUATED 0 State.EVALUATED 1
      State.COMPLETE_EVALUATED).1 = none ∧
    ((is_complete State.COMPLETE_EVALUATED && is_complete State.EVALUATED)
      = true →
      (rangeFn none 0 State.COMPLETE_EVALUATED 0 State.EVALUATED 1
        State.COMPLETE_EVALUATED).2 = some ⟨none, State.COMPLETE⟩ ∧
      (Lift.commit (liftInit (Maybe.ok (0 : Int))) 0 State.CONTINUE_EVALUATED
        (Except.ok ⟨none, State.COMPLETE⟩)).1.state =
        (if (liftInit (Maybe.ok (0 : Int))).hadEvaluation then State.COMPLETE
         else State.COMPLETE_EMPTY) ∧
      has_evaluation (Lift.commit (liftInit (Maybe.ok (0 : Int))) 0
        State.CONTINUE_EVALUATED
        (Except.ok ⟨none, State.COMPLETE⟩)).1.state = false ∧
      (Lift.commit (liftInit (Maybe.ok (0 : Int))) 0 State.CONTINUE_EVALUATED
        (Except.ok ⟨none, State.COMPLETE⟩)).1.value = Maybe.ok 0) ∧
    ((is_complete State.COMPLETE_EVALUATED && is_complete State.EVALUATED)
      = false →
      is_complete State.CONTINUE_EVALUATED = false →
      has_continuation State.CONTINUE_EVALUATED = true →
      (rangeFn none 0 State.COMPLETE_EVALUATED 0 State.EVALUATED 1
        State.COMPLETE_EVALUATED).2 = some ⟨none, State.NONE⟩ ∧
      (Lift.commit (liftInit (Maybe.ok (0 : Int))) 0 State.CONTINUE_EVALUATED
        (Except.ok ⟨none, State.NONE⟩)).1.state = State.CONTINUE ∧
      (Lift.commit (liftInit (Maybe.ok (0 : Int))) 0 State.CONTINUE_EVALUATED
        (Except.ok ⟨none, State.NONE⟩)).1.value = Maybe.ok 0) :=
  range_pause_amended none 0 0 1 State.COMPLETE_EVALUATED State.EVALUATED
    State.COMPLETE_EVALUATED (liftInit (Maybe.ok 0)) 0
    State.CONTINUE_EVALUATED (by decide) (by decide) (by decide) (by decide)

end Aspen
